import Mathlib

/-!
Shallow embedding of `src/cnn_capstone_img_preprocess.py` (wildflower-finder
image preprocessing) together with proofs about the claims of the
specification.

Modelling conventions:
* A numpy image array of shape `(h, w, c)` is the structure `Image α`:
  dimensions plus a total pixel function `pix row col channel`.  Pixel values
  of the uint8 arrays are `Nat`; the float arrays produced by
  `train_validation_split` carry `ℚ` pixels (every uint8 value is exactly
  representable in float32 and the spec's numeric claims — values in `[0,1]`,
  `255 ↦ 1.0` — are exact, so the rational model is faithful).
* Python's floor division `//` by the positive literal `2` coincides with
  Lean's Euclidean division `/` on `Int`, which is what we use.
* numpy basic slicing `a[start:stop]` (step 1) is modelled by `pyIdx`
  normalisation (negative indices wrap by the length, then clamp to
  `[0, len]`), exactly Python's slice semantics.
-/

namespace ImgPreprocess

/-- A pixel array of shape `(h, w, c)` with pixel values in `α`:
`pix r col ch` is entry `[r, col, ch]`; entries outside the shape are
irrelevant junk. -/
structure Image (α : Type) where
  h : Nat
  w : Nat
  c : Nat
  pix : Nat → Nat → Nat → α

/-- Default (empty) uint8 image, used as the `getD` default element. -/
def dImg : Image Nat := ⟨0, 0, 0, fun _ _ _ => 0⟩

/-- Default (empty) rational image. -/
def dQImg : Image ℚ := ⟨0, 0, 0, fun _ _ _ => 0⟩

/-- Python slice-index normalisation for a sequence of length `len`:
a negative index counts from the end, then the result is clamped to
`[0, len]`. -/
def pyIdx (i : Int) (len : Nat) : Nat :=
  (min (max (if i < 0 then i + len else i) 0) (len : Int)).toNat

/-- The centering margin `(new_size_dim - img_shape_dim) // 2` computed by
`_center_image` (Python floor division; the divisor 2 is positive so Int
Euclidean division matches). -/
def centerBuffer (canvasDim tileDim : Nat) : Int :=
  ((canvasDim : Int) - (tileDim : Int)) / 2

/-- Embedding of `_center_image(img, new_size)`: a zero canvas of shape
`(new_size[0], new_size[1], img.shape[2])` with `img` copied in at offsets
`row_buffer, col_buffer`.  (The copy is modelled for the case where the tile
fits on the canvas — non-negative margins — which the pipeline always
satisfies; numpy would raise on a mismatching assignment.) -/
def center_image (img : Image Nat) (newH newW : Nat) : Image Nat :=
  { h := newH, w := newW, c := img.c,
    pix := fun r col ch =>
      if centerBuffer newH img.h ≤ (r : Int) ∧ (r : Int) < centerBuffer newH img.h + img.h ∧
         centerBuffer newW img.w ≤ (col : Int) ∧ (col : Int) < centerBuffer newW img.w + img.w then
        img.pix ((r : Int) - centerBuffer newH img.h).toNat
          ((col : Int) - centerBuffer newW img.w).toNat ch
      else 0 }

/-- Model of `cv2.resize(img, dsize=(dw, dh))`: cv2's `dsize` is
`(width, height)`, so the result has `dh` rows and `dw` columns; pixel values
are nearest-neighbour samples (the spec leaves the interpolated values
unspecified — only the shape is an invariant). -/
def cvResize (img : Image Nat) (dw dh : Nat) : Image Nat :=
  { h := dh, w := dw, c := img.c,
    pix := fun r col ch => img.pix (r * img.h / dh) (col * img.w / dw) ch }

/-- The `tile_size` tuple computed by `resize_image_to_square`: a cv2 `dsize`,
i.e. `(width, height)`.  Note the source uses only `new_size[1]` here;
`int(a*b/c)` on nonnegative ints is floor division. -/
def tile_size (img : Image Nat) (newW1 : Nat) : Nat × Nat :=
  if img.h > img.w then
    (img.w * newW1 / img.h, newW1)
  else
    (newW1, img.h * newW1 / img.w)

/-- Embedding of `resize_image_to_square(img, new_size)`: resize to
`tile_size`, then center on a zero canvas of shape `new_size`. -/
def resize_image_to_square (img : Image Nat) (newH newW : Nat) : Image Nat :=
  center_image (cvResize img (tile_size img newW).1 (tile_size img newW).2) newH newW

/-- Embedding of `crop_image(img, crop_size)`: numpy slice
`img[row_buffer : h - row_buffer, col_buffer : w - col_buffer]` where
`row_buffer = (h - crop_size[0]) // 2` and similarly for columns. -/
def crop_image (img : Image Nat) (cropH cropW : Nat) : Image Nat :=
  { h := pyIdx ((img.h : Int) - centerBuffer img.h cropH) img.h -
           pyIdx (centerBuffer img.h cropH) img.h,
    w := pyIdx ((img.w : Int) - centerBuffer img.w cropW) img.w -
           pyIdx (centerBuffer img.w cropW) img.w,
    c := img.c,
    pix := fun r col ch =>
      img.pix (pyIdx (centerBuffer img.h cropH) img.h + r)
        (pyIdx (centerBuffer img.w cropW) img.w + col) ch }

/-- Model of `cv2.cvtColor(img, cv2.COLOR_BGR2RGB)`: channel order reversed,
shape unchanged. -/
def cvtColor_BGR2RGB (img : Image Nat) : Image Nat :=
  { img with pix := fun r col ch => img.pix r col (img.c - 1 - ch) }

/-- Embedding of `process_images(file_paths_list, resize_new_size, crop_size)`.
`imread` stands for `cv2.imread` (decoding is an external collaborator, an
oracle from path to decoded BGR image); each path is decoded, converted to
RGB, resized to a square and cropped, in input order. -/
def process_images (imread : List Char → Image Nat) (file_paths_list : List (List Char))
    (resizeH resizeW cropH cropW : Nat) : List (Image Nat) :=
  file_paths_list.map fun p =>
    crop_image (resize_image_to_square (cvtColor_BGR2RGB (imread p)) resizeH resizeW) cropH cropW

/-! ### Label extraction (`image_categories`) -/

/-- The characters of the Python string literal `'_.jpg'`, which `rstrip`
treats as a character SET, not a literal suffix. -/
def stripChars : List Char := ['_', '.', 'j', 'p', 'g']

/-- Python `s.rstrip(chars)`: remove from the right end every trailing
character belonging to the set `chars`. -/
def rstripSet (s chars : List Char) : List Char :=
  ((s.reverse.dropWhile fun ch => chars.contains ch)).reverse

/-- Python `name.startswith('.')` (the hidden-file filter in
`image_categories`). -/
def startsWithDot : List Char → Bool
  | [] => false
  | ch :: _ => ch = '.'

/-- The label expression of `image_categories`:
`re.sub("\\d+", "", name).rstrip('_.jpg')` — every decimal digit is removed
(`re.sub` deletes each maximal digit run, i.e. every digit character), then
trailing characters from the set `{_, ., j, p, g}` are stripped. -/
def image_category (name : List Char) : List Char :=
  rstripSet (name.filter fun ch => !ch.isDigit) stripChars

/-- Embedding of `image_categories(img_root)`: the directory listing is an
external collaborator, so the regular files are a parameter.  Hidden names
(leading dot) are skipped; every other name is mapped to
`(img_root ++ name, image_category name)`. -/
def image_categories (imgRoot : List Char) (files : List (List Char)) :
    List (List Char × List Char) :=
  (files.filter fun n => !startsWithDot n).map fun n =>
    (imgRoot ++ n, image_category n)

/-! ### Dataset splitting (`train_validation_split`) -/

/-- Boolean lexicographic order on strings-as-char-lists, used to model the
sorted class vocabulary of `sklearn.LabelEncoder` (`np.unique`). -/
def strLe : List Char → List Char → Bool
  | [], _ => true
  | _ :: _, [] => false
  | a :: as, b :: bs => if a < b then true else if b < a then false else strLe as bs

/-- Insertion into a sorted list under a Boolean comparator. -/
def insertSorted (le : α → α → Bool) (a : α) : List α → List α
  | [] => [a]
  | b :: bs => if le a b then a :: b :: bs else b :: insertSorted le a bs

/-- Insertion sort under a Boolean comparator. -/
def sortBy (le : α → α → Bool) : List α → List α
  | [] => []
  | a :: as => insertSorted le a (sortBy le as)

/-- The class vocabulary of `LabelEncoder().fit_transform(y)`: the sorted
distinct labels of the ENTIRE label array (`np.unique(y)`). -/
def label_classes (ys : List (List Char)) : List (List Char) :=
  (sortBy strLe ys).dedup

/-- `LabelEncoder().fit_transform(y)`: the encoder is fitted once over the
whole array, and every sample is mapped to the index of its label in the
shared sorted vocabulary. -/
def fit_transform (ys : List (List Char)) : List Nat :=
  ys.map fun l => (label_classes ys).indexOf l

/-- numpy fancy indexing `a[idx]`: pick the listed positions in order
(out-of-range positions yield the default `d`; the claims assume in-range
index lists). -/
def take_indices (xs : List α) (d : α) (idx : List Nat) : List α :=
  idx.map fun i => xs.getD i d

/-- Model of `sklearn.model_selection.train_test_split(x, y)`: the RNG draws
a permutation of the index range and the held-out size (by default 25%);
both are explicit parameters here.  Test indices are the first `nTest`
entries of the permutation, train indices the rest, and the SAME index lists
are applied to `x` and `y`. -/
def train_test_split (x : List (Image Nat)) (y : List Nat) (perm : List Nat) (nTest : Nat) :
    List (Image Nat) × List (Image Nat) × List Nat × List Nat :=
  (take_indices x dImg (perm.drop nTest), take_indices x dImg (perm.take nTest),
   take_indices y 0 (perm.drop nTest), take_indices y 0 (perm.take nTest))

/-- `X.astype('float32') / 255` on one pixel value, modelled exactly over ℚ
(every uint8 value is exact in float32 and `255/255 = 1` exactly). -/
def rescale (v : Nat) : ℚ := (v : ℚ) / 255

/-- `X.astype('float32') / 255` on a whole image. -/
def scaleImage (img : Image Nat) : Image ℚ :=
  ⟨img.h, img.w, img.c, fun r col ch => rescale (img.pix r col ch)⟩

/-- Embedding of `train_validation_split(saved_arr)`.  The archive's two
positional arrays (images `x`, string labels `y`) are parameters, as is the
RNG outcome (`perm`, `nTest`).  Labels are integer-encoded by an encoder
fitted once over all of `y`, the arrays are split by the same index
partition, and the image arrays are converted to float and divided by 255. -/
def train_validation_split (x : List (Image Nat)) (y : List (List Char))
    (perm : List Nat) (nTest : Nat) :
    List (Image ℚ) × List (Image ℚ) × List Nat × List Nat :=
  let yEnc := fit_transform y
  let s := train_test_split x yEnc perm nTest
  (s.1.map scaleImage, s.2.1.map scaleImage, s.2.2.1, s.2.2.2)

/-! ### One-hot encoding (`convert_to_binary_class_matrices`) -/

/-- Modelled from the spec: `keras.utils.np_utils.to_categorical` is not part
of this repository.  Spec §4.5 states the source "silently truncates/ignores
rather than raising" on out-of-range labels, and §3 that exceeding labels are
"silently dropped/invalid".  Accordingly: row `i` is the indicator vector of
label `i` when `0 ≤ label < nb_classes`, and an all-zero row otherwise; no
error is ever raised. -/
def to_categorical (y : List Int) (nbClasses : Nat) : List (List Nat) :=
  y.map fun lbl => (List.range nbClasses).map fun (j : Nat) => if lbl = (j : Int) then 1 else 0

/-- Embedding of `convert_to_binary_class_matrices(y_train, y_test, nb_classes)`. -/
def convert_to_binary_class_matrices (y_train y_test : List Int) (nb_classes : Nat) :
    List (List Nat) × List (List Nat) :=
  (to_categorical y_train nb_classes, to_categorical y_test nb_classes)

/-! ### Concrete images used by witness and counterexample theorems -/

/-- Witness image for C1 (odd shape, constant pixel value). -/
def w1img : Image Nat := ⟨3, 5, 3, fun _ _ _ => 7⟩

/-- Counterexample image for C2: height 4 > width 2. -/
def tallImg : Image Nat := ⟨4, 2, 3, fun _ _ _ => 0⟩

/-- Witness image for C9. -/
def w9img : Image Nat := ⟨2, 9, 3, fun _ _ _ => 1⟩

/-- Witness image for C5. -/
def w5img : Image Nat := ⟨10, 20, 3, fun _ _ _ => 5⟩

/-- Witness decode oracle for C5. -/
def w5read : List Char → Image Nat := fun _ => w5img

/-- Witness image A for C3. -/
def w3imgA : Image Nat := ⟨1, 1, 3, fun _ _ _ => 10⟩

/-- Witness image B for C3. -/
def w3imgB : Image Nat := ⟨1, 1, 3, fun _ _ _ => 20⟩

/-- Witness image for C6: a single all-255 pixel image. -/
def w6img : Image Nat := ⟨1, 1, 3, fun _ _ _ => 255⟩

/-! ### Helper lemmas: geometry -/

lemma pyIdx_le (i : Int) (len : Nat) : pyIdx i len ≤ len := by
  unfold pyIdx
  split_ifs <;> omega

lemma center_image_pix (img : Image Nat) (newH newW r col ch : Nat) :
    (center_image img newH newW).pix r col ch =
      if centerBuffer newH img.h ≤ (r : Int) ∧ (r : Int) < centerBuffer newH img.h + img.h ∧
         centerBuffer newW img.w ≤ (col : Int) ∧ (col : Int) < centerBuffer newW img.w + img.w then
        img.pix ((r : Int) - centerBuffer newH img.h).toNat
          ((col : Int) - centerBuffer newW img.w).toNat ch
      else 0 := rfl

lemma crop_image_h (img : Image Nat) (cropH cropW : Nat) (h : cropH ≤ img.h) :
    (crop_image img cropH cropW).h = cropH + (img.h - cropH) % 2 := by
  show pyIdx ((img.h : Int) - centerBuffer img.h cropH) img.h -
      pyIdx (centerBuffer img.h cropH) img.h = _
  unfold pyIdx centerBuffer
  split_ifs <;> omega

lemma crop_image_w (img : Image Nat) (cropH cropW : Nat) (h : cropW ≤ img.w) :
    (crop_image img cropH cropW).w = cropW + (img.w - cropW) % 2 := by
  show pyIdx ((img.w : Int) - centerBuffer img.w cropW) img.w -
      pyIdx (centerBuffer img.w cropW) img.w = _
  unfold pyIdx centerBuffer
  split_ifs <;> omega

lemma tile_size_le (img : Image Nat) (S : Nat) (hh : 0 < img.h) (hw : 0 < img.w) :
    (tile_size img S).1 ≤ S ∧ (tile_size img S).2 ≤ S := by
  unfold tile_size
  split_ifs with hcmp
  · refine ⟨?_, le_refl S⟩
    calc img.w * S / img.h ≤ img.h * S / img.h :=
          Nat.div_le_div_right (Nat.mul_le_mul_right S (le_of_lt hcmp))
      _ = S := Nat.mul_div_cancel_left S hh
  · refine ⟨le_refl S, ?_⟩
    calc img.h * S / img.w ≤ img.w * S / img.w :=
          Nat.div_le_div_right (Nat.mul_le_mul_right S (not_lt.mp hcmp))
      _ = S := Nat.mul_div_cancel_left S hw

/-! ### Claim theorems: geometric normalizer -/

/-- Claim C1: for every input image of positive height and width and 3
channels, the full normalize pipeline (aspect-preserving resize to the square
resize target `[S, S]`, center pad, center crop to `[CH, CW]` with
`CH, CW ≤ S`) produces an output of shape `(CH, CW, 3)`, except that an axis
whose difference `S - crop` is odd comes out one pixel larger — i.e. the
output dimension is `crop + (S - crop) % 2`.  With the default targets
`[256, 256]` and `[224, 224]` the differences are even, so the output shape
is exactly `(224, 224, 3)` (see the witness). -/
theorem C1_normalize_shape (img : Image Nat) (S CH CW : Nat)
    (_hh : 0 < img.h) (_hw : 0 < img.w) (hc : img.c = 3)
    (hCH : CH ≤ S) (hCW : CW ≤ S) :
    (crop_image (resize_image_to_square img S S) CH CW).h = CH + (S - CH) % 2 ∧
    (crop_image (resize_image_to_square img S S) CH CW).w = CW + (S - CW) % 2 ∧
    (crop_image (resize_image_to_square img S S) CH CW).c = 3 := by
  have h1 : (resize_image_to_square img S S).h = S := rfl
  have h2 : (resize_image_to_square img S S).w = S := rfl
  refine ⟨?_, ?_, hc⟩
  · rw [crop_image_h _ _ _ (by rw [h1]; exact hCH), h1]
  · rw [crop_image_w _ _ _ (by rw [h2]; exact hCW), h2]

/-- Claim C1 witness: with the default targets `[256, 256]` / `[224, 224]`
the pipeline output of a concrete 3×5×3 image has shape `(224, 224, 3)`. -/
theorem C1_normalize_shape_witness :
    (crop_image (resize_image_to_square w1img 256 256) 224 224).h = 224 ∧
    (crop_image (resize_image_to_square w1img 256 256) 224 224).w = 224 ∧
    (crop_image (resize_image_to_square w1img 256 256) 224 224).c = 3 := by
  obtain ⟨a, b, c⟩ := C1_normalize_shape w1img 256 224 224 (by decide) (by decide)
    (by decide) (by decide) (by decide)
  exact ⟨a.trans (by norm_num), b.trans (by norm_num), c⟩

/-- Claim C2 counterexample: the claim says that for `height > width` the
resized tile's WIDTH equals `resize_target.W`.  In the source the
`tile_size` tuple is a cv2 `dsize = (width, height)`, and for `height >
width` it is `(w*S/h, S)` — the tile's HEIGHT is held at `S` and the width
is scaled.  Concretely a 4×2 image with target 256 yields a resized tile of
width 128, not 256. -/
theorem C2_counterexample :
    tallImg.h > tallImg.w ∧
    (cvResize tallImg (tile_size tallImg 256).1 (tile_size tallImg 256).2).w = 128 ∧
    ¬ (cvResize tallImg (tile_size tallImg 256).1 (tile_size tallImg 256).2).w = 256 := by
  refine ⟨by decide, rfl, by decide⟩

/-- Claim C2 (amended): in the aspect-preserving resize step with a target
value `S` (= `new_size[1]`; a square target), if `height > width` the resized
tile's HEIGHT equals `S` and its width is `⌊w*S/h⌋ ≤ S`; if `height ≤ width`
the tile's WIDTH equals `S` and its height is `⌊h*S/w⌋ ≤ S`; in all cases the
tile is no larger than `S` in either dimension. -/
theorem C2_amended_resize_tile (img : Image Nat) (S : Nat)
    (hh : 0 < img.h) (hw : 0 < img.w) :
    (img.h > img.w →
       (cvResize img (tile_size img S).1 (tile_size img S).2).h = S ∧
       (cvResize img (tile_size img S).1 (tile_size img S).2).w = img.w * S / img.h) ∧
    (img.h ≤ img.w →
       (cvResize img (tile_size img S).1 (tile_size img S).2).w = S ∧
       (cvResize img (tile_size img S).1 (tile_size img S).2).h = img.h * S / img.w) ∧
    (tile_size img S).1 ≤ S ∧ (tile_size img S).2 ≤ S := by
  refine ⟨?_, ?_, tile_size_le img S hh hw⟩
  · intro hgt
    show (tile_size img S).2 = S ∧ (tile_size img S).1 = img.w * S / img.h
    unfold tile_size
    rw [if_pos hgt]
    exact ⟨rfl, rfl⟩
  · intro hle
    show (tile_size img S).1 = S ∧ (tile_size img S).2 = img.h * S / img.w
    unfold tile_size
    rw [if_neg (not_lt.mpr hle)]
    exact ⟨rfl, rfl⟩

/-- Claim C2 witness: the amended statement applied to the concrete 4×2
image with target 256 — the tile has height 256 and width 128 ≤ 256. -/
theorem C2_amended_resize_tile_witness :
    (cvResize tallImg (tile_size tallImg 256).1 (tile_size tallImg 256).2).h = 256 ∧
    (cvResize tallImg (tile_size tallImg 256).1 (tile_size tallImg 256).2).w =
      tallImg.w * 256 / tallImg.h :=
  (C2_amended_resize_tile tallImg 256 (by decide) (by decide)).1 (by decide)

/-- Claim C9: for every input image with positive height and width and 3
channels and a square resize target `[S, S]`, `resize_image_to_square`
returns an array of exact shape `(S, S, 3)`; the computed tile dimensions
never exceed `S`, both centering margins are non-negative, and the tile copy
fits inside the zero canvas: margin + tile dimension ≤ `S` on both axes,
regardless of the input's aspect ratio. -/
theorem C9_resize_square_invariants (img : Image Nat) (S : Nat)
    (hh : 0 < img.h) (hw : 0 < img.w) (hc : img.c = 3) :
    (resize_image_to_square img S S).h = S ∧
    (resize_image_to_square img S S).w = S ∧
    (resize_image_to_square img S S).c = 3 ∧
    (tile_size img S).1 ≤ S ∧ (tile_size img S).2 ≤ S ∧
    0 ≤ centerBuffer S (tile_size img S).2 ∧
    0 ≤ centerBuffer S (tile_size img S).1 ∧
    centerBuffer S (tile_size img S).2 + (tile_size img S).2 ≤ S ∧
    centerBuffer S (tile_size img S).1 + (tile_size img S).1 ≤ S := by
  obtain ⟨h1, h2⟩ := tile_size_le img S hh hw
  refine ⟨rfl, rfl, hc, h1, h2, ?_, ?_, ?_, ?_⟩ <;>
    · unfold centerBuffer
      omega

/-- Claim C9 witness: the invariants at a concrete wide 2×9×3 image with
target 256. -/
theorem C9_resize_square_invariants_witness :
    (resize_image_to_square w9img 256 256).h = 256 ∧
    (resize_image_to_square w9img 256 256).w = 256 ∧
    (resize_image_to_square w9img 256 256).c = 3 ∧
    (tile_size w9img 256).1 ≤ 256 ∧ (tile_size w9img 256).2 ≤ 256 ∧
    0 ≤ centerBuffer 256 (tile_size w9img 256).2 ∧
    0 ≤ centerBuffer 256 (tile_size w9img 256).1 ∧
    centerBuffer 256 (tile_size w9img 256).2 + (tile_size w9img 256).2 ≤ 256 ∧
    centerBuffer 256 (tile_size w9img 256).1 + (tile_size w9img 256).1 ≤ 256 :=
  C9_resize_square_invariants w9img 256 (by decide) (by decide) (by decide)

/-- Claim C10: padding and cropping never invent or alter pixel values.
Every pixel of the canvas returned by `_center_image` is either 0 (outside
the centered tile rectangle) or equals the corresponding tile pixel shifted
by the centering offsets; and `crop_image` returns a contiguous subregion of
its input — there are offsets `r0, c0` with `r0 + out.h ≤ img.h` and
`c0 + out.w ≤ img.w` such that every output pixel equals the input pixel at
the shifted position. -/
theorem C10_frame_effect (tile : Image Nat) (newH newW : Nat)
    (img : Image Nat) (CH CW : Nat) :
    (∀ r col ch,
       (center_image tile newH newW).pix r col ch = 0 ∨
       ∃ r' col', r' < tile.h ∧ col' < tile.w ∧
         (r : Int) = centerBuffer newH tile.h + r' ∧
         (col : Int) = centerBuffer newW tile.w + col' ∧
         (center_image tile newH newW).pix r col ch = tile.pix r' col' ch) ∧
    (∃ r0 c0, r0 + (crop_image img CH CW).h ≤ img.h ∧
       c0 + (crop_image img CH CW).w ≤ img.w ∧
       ∀ r col ch, (crop_image img CH CW).pix r col ch = img.pix (r0 + r) (c0 + col) ch) := by
  constructor
  · intro r col ch
    rw [center_image_pix]
    split_ifs with hcond
    · right
      obtain ⟨hr1, hr2, hc1, hc2⟩ := hcond
      refine ⟨((r : Int) - centerBuffer newH tile.h).toNat,
        ((col : Int) - centerBuffer newW tile.w).toNat, by omega, by omega, by omega, by omega, rfl⟩
    · left
      rfl
  · refine ⟨pyIdx (centerBuffer img.h CH) img.h, pyIdx (centerBuffer img.w CW) img.w,
      ?_, ?_, fun r col ch => rfl⟩
    · have := pyIdx_le ((img.h : Int) - centerBuffer img.h CH) img.h
      have := pyIdx_le (centerBuffer img.h CH) img.h
      show pyIdx (centerBuffer img.h CH) img.h +
        (pyIdx ((img.h : Int) - centerBuffer img.h CH) img.h -
          pyIdx (centerBuffer img.h CH) img.h) ≤ img.h
      omega
    · have := pyIdx_le ((img.w : Int) - centerBuffer img.w CW) img.w
      have := pyIdx_le (centerBuffer img.w CW) img.w
      show pyIdx (centerBuffer img.w CW) img.w +
        (pyIdx ((img.w : Int) - centerBuffer img.w CW) img.w -
          pyIdx (centerBuffer img.w CW) img.w) ≤ img.w
      omega

/-! ### Helper lemmas: label extraction -/

lemma dropWhile_append_of_all (p : α → Bool) (l1 l2 : List α)
    (h : ∀ a ∈ l1, p a = true) :
    (l1 ++ l2).dropWhile p = l2.dropWhile p := by
  induction l1 with
  | nil => rfl
  | cons a as ih =>
    rw [List.cons_append, List.dropWhile_cons, if_pos (h a (List.mem_cons_self a as))]
    exact ih fun x hx => h x (List.mem_cons_of_mem a hx)

lemma rstripSet_append_of_subset (s suf chars : List Char)
    (h : ∀ ch ∈ suf, chars.contains ch = true) :
    rstripSet (s ++ suf) chars = rstripSet s chars := by
  unfold rstripSet
  rw [List.reverse_append, dropWhile_append_of_all]
  intro a ha
  exact h a (List.mem_reverse.mp ha)

lemma mem_of_mem_rstripSet {x : Char} {s chars : List Char}
    (h : x ∈ rstripSet s chars) : x ∈ s := by
  unfold rstripSet at h
  rw [List.mem_reverse] at h
  exact List.mem_reverse.mp ((List.dropWhile_sublist _).subset h)

lemma head?_dropWhile_all (p : α → Bool) (l : List α) :
    ((l.dropWhile p).head?.all fun a => !p a) = true := by
  induction l with
  | nil => rfl
  | cons a as ih =>
    rw [List.dropWhile_cons]
    split_ifs with hp
    · exact ih
    · have hfalse : p a = false := by revert hp; cases p a <;> simp
      show (!p a) = true
      rw [hfalse]
      rfl

/-! ### Claim theorems: label extractor -/

/-- Claim C4: for a file name of the form `<base><digits>_.jpg` (with `base`
digit-free and `ds` all digits) the extracted label is `base` with any of its
own trailing characters from the set `{_, ., j, p, g}` also removed —
`rstrip` character-class semantics, not removal of the literal suffix
`_.jpg`. -/
theorem C4_extract_label (base ds : List Char)
    (hbase : ∀ ch ∈ base, ch.isDigit = false)
    (hds : ∀ ch ∈ ds, ch.isDigit = true) :
    image_category (base ++ ds ++ stripChars) = rstripSet base stripChars := by
  unfold image_category
  rw [List.append_assoc, List.filter_append, List.filter_append,
    List.filter_eq_self.mpr (fun a ha => by rw [hbase a ha]; rfl),
    List.filter_eq_nil_iff.mpr (fun a ha => by rw [hds a ha]; decide),
    show stripChars.filter (fun ch => !ch.isDigit) = stripChars from rfl,
    List.nil_append]
  exact rstripSet_append_of_subset base stripChars stripChars (by decide)

/-- Claim C4 witness: `roj07_.jpg` — the digits go, the literal suffix goes,
and the 'j' at the end of the remaining base `roj` goes too (character-class
stripping), leaving `ro`. -/
theorem C4_extract_label_witness :
    image_category (['r', 'o', 'j'] ++ ['0', '7'] ++ stripChars) =
      rstripSet ['r', 'o', 'j'] stripChars :=
  C4_extract_label ['r', 'o', 'j'] ['0', '7'] (by decide) (by decide)

/-- Claim C8 counterexample: the non-hidden file name `123.jpg` yields the
EMPTY label — removing digits gives `.jpg` and the rstrip then consumes every
remaining character, contradicting "the derived label is a non-empty
string". -/
theorem C8_counterexample :
    startsWithDot ['1', '2', '3', '.', 'j', 'p', 'g'] = false ∧
    image_category ['1', '2', '3', '.', 'j', 'p', 'g'] = [] := by
  decide

/-- Claim C8 (amended): the derived label is a pure deterministic function of
the file name (the extractor is a pure function), it contains no decimal
digits and never ends in a character from the strip set `{_, ., j, p, g}`;
it can, however, be empty (e.g. for `123.jpg`). -/
theorem C8_amended_label_invariants (name : List Char) :
    ((image_category name).all fun ch => !ch.isDigit) = true ∧
    ((image_category name).getLast?.all fun ch => !stripChars.contains ch) = true := by
  constructor
  · rw [List.all_eq_true]
    intro x hx
    exact (List.mem_filter.mp (mem_of_mem_rstripSet hx)).2
  · show ((rstripSet (name.filter fun ch => !ch.isDigit) stripChars).getLast?.all
        fun ch => !stripChars.contains ch) = true
    unfold rstripSet
    rw [List.getLast?_reverse]
    exact head?_dropWhile_all _ _

/-! ### Claim theorems: batch processor -/

/-- Claim C5: for every decode oracle and finite list of file paths,
`process_images` returns exactly `len(paths)` processed images in input
order — element `i` is the decoded, RGB-converted, resized and cropped image
of path `i` — and `process_images([])` returns the empty sequence. -/
theorem C5_process_images (imread : List Char → Image Nat)
    (paths : List (List Char)) (rH rW cH cW : Nat) :
    (process_images imread paths rH rW cH cW).length = paths.length ∧
    (∀ i, i < paths.length →
       (process_images imread paths rH rW cH cW).getD i dImg =
         crop_image (resize_image_to_square (cvtColor_BGR2RGB (imread (paths.getD i [])))
           rH rW) cH cW) ∧
    process_images imread [] rH rW cH cW = [] := by
  refine ⟨List.length_map _ _, ?_, rfl⟩
  intro i hi
  unfold process_images
  rw [List.getD_eq_getElem _ _ (by simpa using hi), List.getElem_map,
    List.getD_eq_getElem _ _ hi]

/-- Claim C5 witness: a one-path batch has length 1 and its element 0 is the
processed image of path 0. -/
theorem C5_process_images_witness :
    (process_images w5read [['a']] 256 256 224 224).length = [['a']].length ∧
    (process_images w5read [['a']] 256 256 224 224).getD 0 dImg =
      crop_image (resize_image_to_square (cvtColor_BGR2RGB (w5read ([['a']].getD 0 [])))
        256 256) 224 224 :=
  ⟨(C5_process_images w5read [['a']] 256 256 224 224).1,
   (C5_process_images w5read [['a']] 256 256 224 224).2.1 0 (by decide)⟩

/-! ### Helper lemmas: dataset splitter -/

lemma take_indices_getD (xs : List α) (d : α) (idx : List Nat) (i : Nat)
    (hi : i < idx.length) :
    (take_indices xs d idx).getD i d = xs.getD (idx.getD i 0) d := by
  unfold take_indices
  rw [List.getD_eq_getElem _ _ (by simpa using hi), List.getElem_map,
    List.getD_eq_getElem _ _ hi]

lemma map_scale_getD (l : List (Image Nat)) (i : Nat) (hi : i < l.length) :
    (l.map scaleImage).getD i dQImg = scaleImage (l.getD i dImg) := by
  rw [List.getD_eq_getElem _ _ (by simpa using hi), List.getElem_map,
    List.getD_eq_getElem _ _ hi]

lemma fit_transform_getD (y : List (List Char)) (j : Nat) (hj : j < y.length) :
    (fit_transform y).getD j 0 = (label_classes y).indexOf (y.getD j []) := by
  unfold fit_transform
  rw [List.getD_eq_getElem _ _ (by simpa using hj), List.getElem_map,
    List.getD_eq_getElem _ _ hj]

/-! ### Claim theorems: dataset splitter -/

/-- Claim C3: in `train_validation_split` the label encoder is fitted once
over the ENTIRE label array before splitting (every integer code is the index
of the sample's label in the one vocabulary `label_classes y` of the whole
array), and the randomized split applies the same index partition (the RNG's
permutation, test = its first `nTest` entries, train = the rest) to the image
and label arrays: element `i` of the returned train (resp. test) arrays is
image and encoded label of the SAME archive position
`perm.drop nTest |>.getD i 0` (resp. `perm.take nTest |>.getD i 0`). -/
theorem C3_split_pairing (x : List (Image Nat)) (y : List (List Char))
    (perm : List Nat) (nTest : Nat)
    (hperm : ∀ i ∈ perm, i < x.length) (hlen : y.length = x.length) :
    (∀ i, i < (perm.drop nTest).length →
       (train_validation_split x y perm nTest).1.getD i dQImg =
         scaleImage (x.getD ((perm.drop nTest).getD i 0) dImg) ∧
       (train_validation_split x y perm nTest).2.2.1.getD i 0 =
         (label_classes y).indexOf (y.getD ((perm.drop nTest).getD i 0) [])) ∧
    (∀ i, i < (perm.take nTest).length →
       (train_validation_split x y perm nTest).2.1.getD i dQImg =
         scaleImage (x.getD ((perm.take nTest).getD i 0) dImg) ∧
       (train_validation_split x y perm nTest).2.2.2.getD i 0 =
         (label_classes y).indexOf (y.getD ((perm.take nTest).getD i 0) [])) := by
  constructor
  · intro i hi
    constructor
    · show ((take_indices x dImg (perm.drop nTest)).map scaleImage).getD i dQImg = _
      rw [map_scale_getD _ _ (by simpa [take_indices] using hi),
        take_indices_getD x dImg _ i hi]
    · show (take_indices (fit_transform y) 0 (perm.drop nTest)).getD i 0 = _
      rw [take_indices_getD _ _ _ i hi]
      have hjmem : (perm.drop nTest).getD i 0 ∈ perm := by
        rw [List.getD_eq_getElem _ _ hi]
        exact List.mem_of_mem_drop (List.getElem_mem _)
      exact fit_transform_getD y _ (by rw [hlen]; exact hperm _ hjmem)
  · intro i hi
    constructor
    · show ((take_indices x dImg (perm.take nTest)).map scaleImage).getD i dQImg = _
      rw [map_scale_getD _ _ (by simpa [take_indices] using hi),
        take_indices_getD x dImg _ i hi]
    · show (take_indices (fit_transform y) 0 (perm.take nTest)).getD i 0 = _
      rw [take_indices_getD _ _ _ i hi]
      have hjmem : (perm.take nTest).getD i 0 ∈ perm := by
        rw [List.getD_eq_getElem _ _ hi]
        exact List.mem_of_mem_take (List.getElem_mem _)
      exact fit_transform_getD y _ (by rw [hlen]; exact hperm _ hjmem)

/-- Claim C3 witness: with archive images `[A, B]`, labels `[a, b]`,
permutation `[1, 0]` and one held-out sample, train element 0 is image 1
scaled together with the encoding of label 1. -/
theorem C3_split_pairing_witness :
    (train_validation_split [w3imgA, w3imgB] [['a'], ['b']] [1, 0] 1).1.getD 0 dQImg =
      scaleImage ([w3imgA, w3imgB].getD (([1, 0].drop 1).getD 0 0) dImg) ∧
    (train_validation_split [w3imgA, w3imgB] [['a'], ['b']] [1, 0] 1).2.2.1.getD 0 0 =
      (label_classes [['a'], ['b']]).indexOf
        ([['a'], ['b']].getD (([1, 0].drop 1).getD 0 0) []) :=
  (C3_split_pairing [w3imgA, w3imgB] [['a'], ['b']] [1, 0] 1 (by decide) rfl).1 0 (by decide)

lemma rescale_nonneg (v : Nat) : 0 ≤ rescale v := by
  unfold rescale
  positivity

lemma rescale_le_one (v : Nat) (h : v ≤ 255) : rescale v ≤ 1 := by
  unfold rescale
  rw [div_le_one (by norm_num)]
  exact_mod_cast h

lemma pix_getD_bound (x : List (Image Nat)) (idx : List Nat)
    (hpix : ∀ img ∈ x, ∀ r col ch, img.pix r col ch ≤ 255) (i r col ch : Nat) :
    0 ≤ (((take_indices x dImg idx).map scaleImage).getD i dQImg).pix r col ch ∧
    (((take_indices x dImg idx).map scaleImage).getD i dQImg).pix r col ch ≤ 1 := by
  by_cases hi : i < idx.length
  · rw [map_scale_getD _ _ (by simpa [take_indices] using hi),
      take_indices_getD x dImg idx i hi]
    have hb : (x.getD (idx.getD i 0) dImg).pix r col ch ≤ 255 := by
      by_cases hj : idx.getD i 0 < x.length
      · refine hpix _ ?_ r col ch
        rw [List.getD_eq_getElem _ _ hj]
        exact List.getElem_mem _
      · rw [List.getD_eq_default _ _ (not_lt.mp hj)]
        exact Nat.zero_le 255
    exact ⟨rescale_nonneg _, rescale_le_one _ hb⟩
  · rw [List.getD_eq_default _ _ (by simpa [take_indices] using not_lt.mp hi)]
    exact ⟨le_refl 0, zero_le_one⟩

/-- Claim C6: for archives of uint8 images (every pixel value ≤ 255), every
pixel value of the `X_train` and `X_test` arrays returned by
`train_validation_split` lies in `[0, 1]`, and input value 255 maps to
exactly 1 under the `astype(float32)/255` rescaling. -/
theorem C6_pixel_range (x : List (Image Nat)) (y : List (List Char))
    (perm : List Nat) (nTest : Nat)
    (hpix : ∀ img ∈ x, ∀ r col ch, img.pix r col ch ≤ 255) :
    (∀ i r col ch,
       0 ≤ ((train_validation_split x y perm nTest).1.getD i dQImg).pix r col ch ∧
       ((train_validation_split x y perm nTest).1.getD i dQImg).pix r col ch ≤ 1) ∧
    (∀ i r col ch,
       0 ≤ ((train_validation_split x y perm nTest).2.1.getD i dQImg).pix r col ch ∧
       ((train_validation_split x y perm nTest).2.1.getD i dQImg).pix r col ch ≤ 1) ∧
    rescale 255 = 1 := by
  refine ⟨?_, ?_, by norm_num [rescale]⟩
  · intro i r col ch
    exact pix_getD_bound x (perm.drop nTest) hpix i r col ch
  · intro i r col ch
    exact pix_getD_bound x (perm.take nTest) hpix i r col ch

/-- Claim C6 witness: the bound at a concrete one-image archive whose pixels
are all 255. -/
theorem C6_pixel_range_witness :
    0 ≤ ((train_validation_split [w6img] [['a']] [0] 0).1.getD 0 dQImg).pix 0 0 0 ∧
    ((train_validation_split [w6img] [['a']] [0] 0).1.getD 0 dQImg).pix 0 0 0 ≤ 1 :=
  (C6_pixel_range [w6img] [['a']] [0] 0
    (fun img hm r col ch => by
      rw [List.mem_singleton] at hm
      subst hm
      exact le_refl 255)).1 0 0 0 0

/-! ### Helper lemmas: one-hot encoding -/

lemma indicator_row_sum (nb : Nat) (lbl : Int) (h0 : 0 ≤ lbl)
    (h1 : lbl < (nb : Int)) :
    ((List.range nb).map fun (j : Nat) => if lbl = (j : Int) then 1 else 0).sum = 1 := by
  revert h1
  induction nb with
  | zero =>
    intro h1
    exfalso
    omega
  | succ n ih =>
    intro h1
    rw [List.range_succ, List.map_append, List.sum_append]
    by_cases hc : lbl = (n : Int)
    · have hz : ((List.range n).map fun (j : Nat) => if lbl = (j : Int) then 1 else 0).sum = 0 := by
        apply List.sum_eq_zero
        intro a ha
        obtain ⟨j, hj, rfl⟩ := List.mem_map.mp ha
        rw [List.mem_range] at hj
        have hne : ¬ lbl = (j : Int) := by omega
        rw [if_neg hne]
      rw [hz]
      simp [hc]
    · have h1n : lbl < (n : Int) := by omega
      rw [ih h1n]
      simp [hc]

lemma to_categorical_row (y : List Int) (nb i : Nat) (hi : i < y.length) :
    (to_categorical y nb).getD i [] =
      (List.range nb).map fun (j : Nat) => if y.getD i 0 = (j : Int) then 1 else 0 := by
  unfold to_categorical
  rw [List.getD_eq_getElem _ _ (by simpa using hi), List.getElem_map,
    List.getD_eq_getElem _ _ hi]

lemma indicator_row_getD (nb j : Nat) (lbl : Int) (hj : j < nb) :
    ((List.range nb).map fun (k : Nat) => if lbl = (k : Int) then 1 else 0).getD j 0 =
      if lbl = (j : Int) then 1 else 0 := by
  rw [List.getD_eq_getElem _ _ (by simpa using hj), List.getElem_map]
  simp

/-! ### Claim theorems: one-hot encoding -/

/-- Claim C7 counterexample: at label 3 with `num_classes = 3` (label ≥
`num_classes`) the conversion does NOT fail with any error — per spec §4.5
the source silently ignores the out-of-range label, here modelled as the
total function `to_categorical` — and the resulting row is all-zero (sum 0,
not an indicator row). -/
theorem C7_counterexample :
    to_categorical [3] 3 = [[0, 0, 0]] ∧
    ((to_categorical [3] 3).getD 0 []).sum ≠ 1 := by
  decide

/-- Claim C7 (amended): out-of-range labels (negative or ≥ `num_classes`) are
silently encoded as all-zero rows rather than raising an error; when every
label lies in `[0, num_classes)`, output row `i` is the indicator vector of
input label `i` (each row sums to exactly 1), and
`to_one_hot([0,2,1], 3) = [[1,0,0],[0,0,1],[0,1,0]]`. -/
theorem C7_amended_one_hot (y : List Int) (nb : Nat)
    (hy : ∀ l ∈ y, 0 ≤ l ∧ l < (nb : Int)) :
    (∀ i, i < y.length →
       ((to_categorical y nb).getD i []).sum = 1 ∧
       (∀ j, j < nb → ((to_categorical y nb).getD i []).getD j 0 =
          if y.getD i 0 = (j : Int) then 1 else 0)) ∧
    convert_to_binary_class_matrices [0, 2, 1] [0, 2, 1] 3 =
      ([[1, 0, 0], [0, 0, 1], [0, 1, 0]], [[1, 0, 0], [0, 0, 1], [0, 1, 0]]) := by
  constructor
  · intro i hi
    have hmem : y.getD i 0 ∈ y := by
      rw [List.getD_eq_getElem _ _ hi]
      exact List.getElem_mem _
    obtain ⟨h0, h1⟩ := hy _ hmem
    rw [to_categorical_row y nb i hi]
    exact ⟨indicator_row_sum nb _ h0 h1, fun j hj => indicator_row_getD nb j _ hj⟩
  · decide

/-- Claim C7 witness: the amended statement at `y = [0, 2, 1]`,
`num_classes = 3`: row 0 sums to 1. -/
theorem C7_amended_one_hot_witness :
    ((to_categorical [0, 2, 1] 3).getD 0 []).sum = 1 :=
  ((C7_amended_one_hot [0, 2, 1] 3 (by decide)).1 0 (by decide)).1

end ImgPreprocess
